import Mathlib

/-!
NodeGraph: verification of the force-graph drag/render component.

Shallow embedding of `src/Graph.js` (SuryaManavalan/NodeGraph): a PIXI +
d3-force graph whose nodes can be dragged and pinned.  Node coordinates,
velocities and the simulation's alpha are embedded as rationals; the
nullable pinned coordinates `fx`/`fy` become `Option ℚ`.  The drag
handlers (`onDragStart`, `onDragMove`, `onDragEnd`), the link
construction and the render pass (`updatePositions`, `drawNode`) are
translated from the source.  The d3-force engine itself is a library
dependency whose code is not part of the repository; its tick is
modelled from the spec where a claim needs it.
-/

namespace NodeGraph

/-- A graph node, as created in `Graph.js`: `{ id, x, y, linkCount }`,
with the fields the simulation and the drag handlers add later:
velocity `vx`/`vy`, the nullable pin `fx`/`fy`, and the visual opacity
of the node's circle (`circle.alpha`, set to 0.5 while dragged). -/
structure Node where
  id : ℕ
  x : ℚ
  y : ℚ
  vx : ℚ := 0
  vy : ℚ := 0
  fx : Option ℚ := none
  fy : Option ℚ := none
  linkCount : ℕ := 0
  circleAlpha : ℚ := 1
  deriving Repr, DecidableEq

/-- The mutable state the component closes over: the node list, the
drag target (`let dragTarget = null`, holding the dragged node's id),
whether `onDragMove` is currently subscribed on the stage
(`app.stage.on("pointermove", onDragMove)`), and the simulation's
alpha state. -/
structure World where
  nodes : List Node
  dragTarget : Option ℕ := none
  moveSubscribed : Bool := false
  alpha : ℚ := 1
  alphaTarget : ℚ := 0
  deriving Repr, DecidableEq

/-- Update every node whose id is `i` (node ids are unique in the
construction; the handlers reach the node through `circle.node`). -/
def updNodes (i : ℕ) (f : Node → Node) (ns : List Node) : List Node :=
  ns.map (fun n => if n.id = i then f n else n)

/-- Look a node up by id (first match). -/
def World.getNode (w : World) (i : ℕ) : Option Node :=
  w.nodes.find? (fun n => n.id = i)

/-- The handler `onDragStart` (Graph.js:113-119), fired by `pointerdown` on the
circle of node `i`: `this.alpha = 0.5; dragTarget = this;
dragTarget.node.fx = event.global.x; dragTarget.node.fy =
event.global.y; app.stage.on("pointermove", onDragMove)`.  Note there
is no guard on `dragTarget` already being set. -/
def onDragStart (w : World) (i : ℕ) (px py : ℚ) : World :=
  { w with
    nodes := updNodes i
      (fun n => { n with circleAlpha := 1/2, fx := some px, fy := some py }) w.nodes,
    dragTarget := some i,
    moveSubscribed := true }

/-- The handler `onDragMove` (Graph.js:105-111): `if (dragTarget) { dragTarget.node.fx
= event.global.x; dragTarget.node.fy = event.global.y;
simulation.alpha(1).restart(); }`. -/
def onDragMove (w : World) (px py : ℚ) : World :=
  match w.dragTarget with
  | none => w
  | some i =>
    { w with
      nodes := updNodes i (fun n => { n with fx := some px, fy := some py }) w.nodes,
      alpha := 1 }

/-- The handler `onDragEnd` (Graph.js:121-130): `if (dragTarget) {
app.stage.off("pointermove", onDragMove); dragTarget.alpha = 1;
dragTarget.node.fx = null; dragTarget.node.fy = null; dragTarget =
null; simulation.alphaTarget(0); }`. -/
def onDragEnd (w : World) : World :=
  match w.dragTarget with
  | none => w
  | some i =>
    { w with
      nodes := updNodes i
        (fun n => { n with circleAlpha := 1, fx := none, fy := none }) w.nodes,
      dragTarget := none,
      moveSubscribed := false,
      alphaTarget := 0 }

/-- Modelled from the spec: one integration step of the d3-force engine
(a library dependency, not in the repository source) for a single node.
"each node's velocity accumulates the net force scaled by alpha, then
position += velocity, except when the node has a non-null pinned
position, in which case position is clamped to (fx, fy)" (§4.1).  `f`
is the net force on this node this tick. -/
def tickNode (alpha : ℚ) (f : ℚ × ℚ) (n : Node) : Node :=
  let vx := n.vx + f.1 * alpha
  let vy := n.vy + f.2 * alpha
  { n with
    x := match n.fx with | some px => px | none => n.x + vx,
    y := match n.fy with | some py => py | none => n.y + vy,
    vx := if n.fx.isSome then 0 else vx,
    vy := if n.fy.isSome then 0 else vy }

/-- Modelled from the spec: one tick of the d3-force engine (library
dependency, not in the repository source).  "alpha decays by a fixed
multiplicative rate ... or is left at a fixed alphaTarget if one is
set" (§4.1): alpha moves toward `alphaTarget` by the fixed rate
`decay`, then every node is integrated with the new alpha.  The net
forces are supplied from outside as a function `f` of the node id. -/
def tickSim (decay : ℚ) (f : ℕ → ℚ × ℚ) (w : World) : World :=
  let a := w.alpha + (w.alphaTarget - w.alpha) * decay
  { w with
    alpha := a,
    nodes := w.nodes.map (fun n => tickNode a (f n.id) n) }

/-- The events the component reacts to: `pointerdown` on a node's
circle (the host surface reports which node was hit), the global
`pointermove`, `pointerup` / `pointerupoutside` on the stage, and a
simulation tick carrying the net forces of that tick. -/
inductive Event where
  | pointerDown (i : ℕ) (px py : ℚ)
  | pointerMove (px py : ℚ)
  | pointerUp
  | pointerUpOutside
  | tick (f : ℕ → ℚ × ℚ)

/-- Dispatch one event.  `pointermove` only reaches `onDragMove` while
the subscription made by `onDragStart` is active. -/
def step (decay : ℚ) (w : World) (e : Event) : World :=
  match e with
  | .pointerDown i px py => onDragStart w i px py
  | .pointerMove px py => if w.moveSubscribed then onDragMove w px py else w
  | .pointerUp => onDragEnd w
  | .pointerUpOutside => onDragEnd w
  | .tick f => tickSim decay f w

/-- Run a sequence of events. -/
def run (decay : ℚ) (w : World) (es : List Event) : World :=
  es.foldl (step decay) w

/-- The fresh component state: no drag in progress, no `pointermove`
subscription, and a freshly constructed simulation (d3's initial alpha
is 1, initial alphaTarget 0). -/
def initWorld (ns : List Node) : World :=
  { nodes := ns }

/-- Link construction (Graph.js:50-58): random `(source, target)` node
pairs are drawn and the self pairs are dropped by
`.filter(l => l.source !== l.target)`.  The node objects are pairwise
distinct, so the reference comparison `!==` is comparison of node ids;
links are embedded as id pairs and `pairs` stands for the random
draws. -/
def mkLinks (pairs : List (ℕ × ℕ)) : List (ℕ × ℕ) :=
  pairs.filter (fun p => p.1 ≠ p.2)

/-- The `linkCount` a node ends up with after the link construction:
for each non-self pair drawn, both endpoints' counters are incremented
(`source.linkCount++; target.linkCount++`, Graph.js:53-56). -/
def mkLinkCount (i : ℕ) : List (ℕ × ℕ) → ℕ
  | [] => 0
  | p :: ps =>
    (if p.1 ≠ p.2 then (if p.1 = i then 1 else 0) + (if p.2 = i then 1 else 0) else 0)
      + mkLinkCount i ps

/-- The number of link ends incident to node `i` in a link list: its
degree. -/
def degree (links : List (ℕ × ℕ)) (i : ℕ) : ℕ :=
  (links.filter (fun p => p.1 = i)).length + (links.filter (fun p => p.2 = i)).length

/-- The drawing commands a render pass issues to the host surface:
clearing the shared link `Graphics`, a link line segment, clearing one
node's circle `Graphics` (identified by the node id), and a node
circle. -/
inductive DrawCmd where
  | clearLinks
  | line (x1 y1 x2 y2 : ℚ)
  | clearCircle (id : ℕ)
  | circle (id : ℕ) (x y : ℚ) (radius : ℕ)
  deriving Repr, DecidableEq

/-- The radius computed in `drawNode` (Graph.js:162):
`const radius = 4 + linkCount*2`. -/
def nodeRadius (linkCount : ℕ) : ℕ :=
  4 + linkCount * 2

/-- The function `drawNode` (Graph.js:161-167): clears the node's circle graphic,
then draws a circle of radius `nodeRadius linkCount` at `(x, y)`.  The
graphic is identified by its node's id. -/
def drawNode (i : ℕ) (x y : ℚ) (linkCount : ℕ) : List DrawCmd :=
  [DrawCmd.clearCircle i, DrawCmd.circle i x y (nodeRadius linkCount)]

/-- The render pass `updatePositions` (Graph.js:137-159), the per-tick render pass:
clear the shared link graphics, draw every link as a line between its
source's and target's current positions ("Draw links first so nodes
appear on top"), then for every node clear its circle graphic
(`node.circle.clear()`) and redraw it via `drawNode`.  Every node owns
a circle, and links hold node references, resolved here by looking the
id pair up in the current node list. -/
def updatePositions (nodes : List Node) (links : List (ℕ × ℕ)) : List DrawCmd :=
  DrawCmd.clearLinks ::
    (links.filterMap (fun l =>
      match nodes.find? (fun n => n.id = l.1), nodes.find? (fun n => n.id = l.2) with
      | some s, some t => some (DrawCmd.line s.x s.y t.x t.y)
      | _, _ => none)
    ++ nodes.flatMap (fun n =>
        DrawCmd.clearCircle n.id :: drawNode n.id n.x n.y n.linkCount))

/-- The proposition that dispatching `e` in state `w` performs a
reheat: only `onDragMove` issues `simulation.alpha(1).restart()`, and
only when the move subscription is live and a drag target is set.  (In
this program `setAlphaTarget` is only ever called with 0, on drag end,
so a positive alpha target never occurs.) -/
def ReheatsIn (w : World) : Event → Prop
  | Event.pointerMove _ _ => w.moveSubscribed = true ∧ w.dragTarget.isSome = true
  | _ => False

/-- The proposition that no event of `es`, dispatched in sequence from
`w`, performs a reheat. -/
def NoReheat (decay : ℚ) : World → List Event → Prop
  | _, [] => True
  | w, e :: es => ¬ ReheatsIn w e ∧ NoReheat decay (step decay w e) es

/-- The alpha-related state invariant of the program: `alphaTarget` is
only ever written with 0, and alpha stays inside the unit interval. -/
def AlphaInv (w : World) : Prop :=
  w.alphaTarget = 0 ∧ 0 ≤ w.alpha ∧ w.alpha ≤ 1

/-- Discriminator: is this command a link line segment? -/
def DrawCmd.isLine : DrawCmd → Bool
  | .line _ _ _ _ => true
  | _ => false

/-- Discriminator: is this command a node circle? -/
def DrawCmd.isCircle : DrawCmd → Bool
  | .circle _ _ _ _ => true
  | _ => false

/-- A two-node world used as the concrete input of several witnesses
and counterexamples below. -/
def twoNodes : List Node :=
  [{ id := 0, x := 0, y := 0 }, { id := 1, x := 5, y := 5 }]

/-- A node pinned at (100, 100), as in the spec's pin scenario. -/
def pinNode : Node := { id := 0, x := 100, y := 100, fx := some 100, fy := some 100 }

end NodeGraph

namespace NodeGraph

/-- Positional effect of `updNodes`: the node at index `k` is
transformed exactly when its id matches. -/
theorem getElem?_updNodes (i : ℕ) (f : Node → Node) (ns : List Node) (k : ℕ) :
    (updNodes i f ns)[k]? = ns[k]?.map (fun n => if n.id = i then f n else n) := by
  simp [updNodes]

/-- C7: every link produced by the construction joins two distinct
nodes: the `.filter(l => l.source !== l.target)` at Graph.js:58 drops
every self pair, whatever the random draws were. -/
theorem mkLinks_no_self_links (pairs : List (ℕ × ℕ)) :
    ∀ l ∈ mkLinks pairs, l.1 ≠ l.2 := by
  intro l hl
  have h := (List.mem_filter.mp hl).2
  simpa using h

/-- Witness for C7 on a concrete draw list containing a self pair. -/
theorem mkLinks_no_self_links_witness :
    ((0, 1) ∈ mkLinks [(0, 1), (2, 2), (1, 0)]) ∧
      ((0, 1) : ℕ × ℕ).1 ≠ ((0, 1) : ℕ × ℕ).2 :=
  ⟨by decide, mkLinks_no_self_links [(0, 1), (2, 2), (1, 0)] (0, 1) (by decide)⟩

/-- Unfolding `degree` over a cons cell. -/
theorem degree_cons (p : ℕ × ℕ) (L : List (ℕ × ℕ)) (i : ℕ) :
    degree (p :: L) i =
      ((if p.1 = i then 1 else 0) + (if p.2 = i then 1 else 0)) + degree L i := by
  by_cases h1 : p.1 = i <;> by_cases h2 : p.2 = i <;>
    simp [degree, List.filter_cons, h1, h2] <;> omega

/-- The `linkCount` counter maintained during link construction agrees
with the degree of the node in the final (self-pair-filtered) link
list. -/
theorem mkLinkCount_eq_degree (i : ℕ) (pairs : List (ℕ × ℕ)) :
    mkLinkCount i pairs = degree (mkLinks pairs) i := by
  induction pairs with
  | nil => rfl
  | cons p ps ih =>
    by_cases h : p.1 = p.2
    · have hm : mkLinks (p :: ps) = mkLinks ps := by
        simp [mkLinks, List.filter_cons, h]
      rw [hm, ← ih]
      simp [mkLinkCount, h]
    · have hm : mkLinks (p :: ps) = p :: mkLinks ps := by
        simp [mkLinks, List.filter_cons, h]
      rw [hm, degree_cons, ← ih]
      simp [mkLinkCount, h]

/-- C9: the rendered radius is monotonically non-decreasing in degree:
for any two nodes of a constructed graph, if the first one's degree in
the constructed link list is at most the second one's, the radius
`drawNode` gives the first (from its `linkCount`) is at most the
radius it gives the second. -/
theorem nodeRadius_monotone_in_degree (pairs : List (ℕ × ℕ)) (i j : ℕ)
    (h : degree (mkLinks pairs) i ≤ degree (mkLinks pairs) j) :
    nodeRadius (mkLinkCount i pairs) ≤ nodeRadius (mkLinkCount j pairs) := by
  rw [nodeRadius, nodeRadius, mkLinkCount_eq_degree, mkLinkCount_eq_degree]
  omega

/-- Witness for C9 on a concrete draw list where node 0 has degree 1
and node 1 has degree 3. -/
theorem nodeRadius_monotone_in_degree_witness :
    degree (mkLinks [(0, 1), (1, 2), (1, 3)]) 0 ≤ degree (mkLinks [(0, 1), (1, 2), (1, 3)]) 1 ∧
      nodeRadius (mkLinkCount 0 [(0, 1), (1, 2), (1, 3)])
        ≤ nodeRadius (mkLinkCount 1 [(0, 1), (1, 2), (1, 3)]) :=
  ⟨by decide, nodeRadius_monotone_in_degree [(0, 1), (1, 2), (1, 3)] 0 1 (by decide)⟩

/-- C10: a `pointerup` or `pointerupoutside` delivered while no drag is
in progress leaves the whole state untouched: `onDragEnd` is guarded by
`if (dragTarget)` and does nothing when the drag target is null. -/
theorem dragend_noop_when_idle (decay : ℚ) (w : World)
    (hidle : w.dragTarget = none) :
    step decay w Event.pointerUp = w ∧ step decay w Event.pointerUpOutside = w := by
  constructor <;> simp [step, onDragEnd, hidle]

/-- Witness for C10 at the fresh two-node world. -/
theorem dragend_noop_when_idle_witness :
    step (1/100) (initWorld twoNodes) Event.pointerUp = initWorld twoNodes ∧
      step (1/100) (initWorld twoNodes) Event.pointerUpOutside = initWorld twoNodes :=
  dragend_noop_when_idle (1/100) (initWorld twoNodes) rfl

/-- C5: ending a drag (on `pointerup`, and identically on
`pointerupoutside`) returns to Idle: the drag target is dropped, the
`pointermove` subscription removed, `alphaTarget` set back to `0`, the
dragged node's pin `fx`/`fy` cleared to null and its circle's opacity
restored to 1, and every other node untouched. -/
theorem dragend_clears_pin_and_settles (decay : ℚ) (w : World) (i : ℕ)
    (hdrag : w.dragTarget = some i) :
    (step decay w Event.pointerUp).dragTarget = none ∧
    (step decay w Event.pointerUp).moveSubscribed = false ∧
    (step decay w Event.pointerUp).alphaTarget = 0 ∧
    (step decay w Event.pointerUp).alpha = w.alpha ∧
    (∀ k : ℕ, ∀ n : Node, w.nodes[k]? = some n →
      (step decay w Event.pointerUp).nodes[k]? =
        some (if n.id = i then { n with circleAlpha := 1, fx := none, fy := none }
              else n)) ∧
    step decay w Event.pointerUpOutside = step decay w Event.pointerUp := by
  refine ⟨?_, ?_, ?_, ?_, ?_, ?_⟩
  · simp [step, onDragEnd, hdrag]
  · simp [step, onDragEnd, hdrag]
  · simp [step, onDragEnd, hdrag]
  · simp [step, onDragEnd, hdrag]
  · intro k n hk
    simp [step, onDragEnd, hdrag, getElem?_updNodes, hk]
  · simp [step, onDragEnd, hdrag]

/-- Witness for C5, running the spec scenario: pointer-down on node 0
at (0,0), pointer-move to (50,50) — the node is pinned at (50,50) and
the drag target live — then after pointer-up the drag target is gone,
`alphaTarget` is 0, and node 0's pin is cleared with opacity back at
1. -/
theorem dragend_clears_pin_and_settles_witness :
    ((run (1/100) (initWorld twoNodes)
        [Event.pointerDown 0 0 0, Event.pointerMove 50 50]).dragTarget = some 0 ∧
      ((run (1/100) (initWorld twoNodes)
          [Event.pointerDown 0 0 0, Event.pointerMove 50 50]).getNode 0).map Node.fx
        = some (some 50)) ∧
    (step (1/100) (run (1/100) (initWorld twoNodes)
        [Event.pointerDown 0 0 0, Event.pointerMove 50 50]) Event.pointerUp).dragTarget
      = none ∧
    (step (1/100) (run (1/100) (initWorld twoNodes)
        [Event.pointerDown 0 0 0, Event.pointerMove 50 50]) Event.pointerUp).alphaTarget
      = 0 ∧
    (step (1/100) (run (1/100) (initWorld twoNodes)
        [Event.pointerDown 0 0 0, Event.pointerMove 50 50]) Event.pointerUp).nodes[0]?
      = some { id := 0, x := 0, y := 0, circleAlpha := 1, fx := none, fy := none } := by
  have h := dragend_clears_pin_and_settles (1/100)
    (run (1/100) (initWorld twoNodes) [Event.pointerDown 0 0 0, Event.pointerMove 50 50])
    0 (by decide)
  refine ⟨⟨by decide, by decide⟩, h.1, h.2.2.1, ?_⟩
  have h5 := h.2.2.2.2.1 0
    { id := 0, x := 0, y := 0, circleAlpha := 1/2, fx := some 50, fy := some 50 }
    (by rfl)
  simpa using h5

/-- C2 counterexample: with node 0 already being dragged (drag target
0, node 1 unpinned), a further pointer-down on node 1 is not ignored:
it changes the drag target to node 1 and sets node 1's pin, refuting
first-drag-wins. -/
theorem dragstart_while_dragging_not_ignored_cex :
    ((run (1/100) (initWorld twoNodes) [Event.pointerDown 0 10 10]).dragTarget = some 0 ∧
      ((run (1/100) (initWorld twoNodes) [Event.pointerDown 0 10 10]).getNode 1).map
        Node.fx = some none) ∧
    (run (1/100) (initWorld twoNodes)
        [Event.pointerDown 0 10 10, Event.pointerDown 1 20 20]).dragTarget = some 1 ∧
    ((run (1/100) (initWorld twoNodes)
        [Event.pointerDown 0 10 10, Event.pointerDown 1 20 20]).getNode 1).map
      Node.fx = some (some 20) := by
  refine ⟨⟨by decide, by decide⟩, by decide, by decide⟩

/-- C2 (amended): a pointer-down delivered while already Dragging is
not ignored — `onDragStart` has no guard on `dragTarget`.  The drag
target is replaced by the newly hit node (last-drag-wins), that node's
pin is set to the pointer coordinates and its circle dimmed, and every
node with a different id — including the previously dragged one, whose
pin is left set — is unchanged; alpha and alphaTarget are
untouched. -/
theorem dragstart_while_dragging_replaces_target
    (decay : ℚ) (w : World) (i j : ℕ) (p q : ℚ)
    (hdrag : w.dragTarget = some i) :
    (step decay w (Event.pointerDown j p q)).dragTarget = some j ∧
    (step decay w (Event.pointerDown j p q)).moveSubscribed = true ∧
    (step decay w (Event.pointerDown j p q)).alpha = w.alpha ∧
    (step decay w (Event.pointerDown j p q)).alphaTarget = w.alphaTarget ∧
    ∀ k : ℕ, ∀ n : Node, w.nodes[k]? = some n →
      (step decay w (Event.pointerDown j p q)).nodes[k]? =
        some (if n.id = j then { n with circleAlpha := 1/2, fx := some p, fy := some q }
              else n) := by
  refine ⟨rfl, rfl, rfl, rfl, ?_⟩
  intro k n hk
  simp [step, onDragStart, getElem?_updNodes, hk]

/-- Witness for the amended C2 at a concrete second pointer-down. -/
theorem dragstart_while_dragging_replaces_target_witness :
    (step (1/100) (run (1/100) (initWorld twoNodes) [Event.pointerDown 0 10 10])
        (Event.pointerDown 1 20 20)).dragTarget = some 1 ∧
    (step (1/100) (run (1/100) (initWorld twoNodes) [Event.pointerDown 0 10 10])
        (Event.pointerDown 1 20 20)).nodes[1]? =
      some { id := 1, x := 5, y := 5, circleAlpha := 1/2, fx := some 20, fy := some 20 } := by
  have h := dragstart_while_dragging_replaces_target (1/100)
    (run (1/100) (initWorld twoNodes) [Event.pointerDown 0 10 10]) 0 1 20 20 (by decide)
  refine ⟨h.1, ?_⟩
  have h5 := h.2.2.2.2 1 { id := 1, x := 5, y := 5 } (by rfl)
  simpa using h5

/-- C3 counterexample: during a drag (pointer-down on node 0, then one
tick bringing alpha to 99/100), a pointer-move resets alpha to 1: the
move handler issues `simulation.alpha(1).restart()`, i.e. a reheat is
re-triggered on every move event, contrary to the claim. -/
theorem dragmove_reheats_cex :
    (run (1/100) (initWorld twoNodes)
        [Event.pointerDown 0 10 10, Event.tick (fun _ => (0, 0))]).alpha = 99/100 ∧
    (run (1/100) (initWorld twoNodes)
        [Event.pointerDown 0 10 10, Event.tick (fun _ => (0, 0)),
          Event.pointerMove 30 30]).alpha = 1 := by
  constructor <;>
    norm_num [run, step, onDragStart, onDragMove, tickSim, initWorld, twoNodes, updNodes]

/-- C3 (amended): during an active drag every pointer-move updates the
dragged node's pin to the new pointer coordinates — and, contrary to
the claim's second half, it also re-triggers a reheat on every move
event: `onDragMove` runs `simulation.alpha(1).restart()`, resetting
alpha to 1 each time. -/
theorem dragmove_updates_pin_and_reheats
    (decay : ℚ) (w : World) (i : ℕ) (p q : ℚ)
    (hdrag : w.dragTarget = some i) (hsub : w.moveSubscribed = true) :
    (step decay w (Event.pointerMove p q)).alpha = 1 ∧
    (step decay w (Event.pointerMove p q)).dragTarget = some i ∧
    (step decay w (Event.pointerMove p q)).alphaTarget = w.alphaTarget ∧
    (step decay w (Event.pointerMove p q)).moveSubscribed = true ∧
    ∀ k : ℕ, ∀ n : Node, w.nodes[k]? = some n →
      (step decay w (Event.pointerMove p q)).nodes[k]? =
        some (if n.id = i then { n with fx := some p, fy := some q } else n) := by
  refine ⟨?_, ?_, ?_, ?_, ?_⟩
  · simp [step, onDragMove, hdrag, hsub]
  · simp [step, onDragMove, hdrag, hsub]
  · simp [step, onDragMove, hdrag, hsub]
  · simp [step, onDragMove, hdrag, hsub]
  · intro k n hk
    simp [step, onDragMove, hdrag, hsub, getElem?_updNodes, hk]

/-- Witness for the amended C3 at a concrete pointer-move. -/
theorem dragmove_updates_pin_and_reheats_witness :
    (step (1/100) (run (1/100) (initWorld twoNodes) [Event.pointerDown 0 10 10])
        (Event.pointerMove 30 40)).alpha = 1 ∧
    (step (1/100) (run (1/100) (initWorld twoNodes) [Event.pointerDown 0 10 10])
        (Event.pointerMove 30 40)).nodes[0]? =
      some { id := 0, x := 0, y := 0, circleAlpha := 1/2, fx := some 30, fy := some 40 } := by
  have h := dragmove_updates_pin_and_reheats (1/100)
    (run (1/100) (initWorld twoNodes) [Event.pointerDown 0 10 10]) 0 30 40
    (by decide) (by decide)
  refine ⟨h.1, ?_⟩
  have h5 := h.2.2.2.2 0
    { id := 0, x := 0, y := 0, circleAlpha := 1/2, fx := some 10, fy := some 10 } (by rfl)
  simpa using h5

/-- C4 counterexample: from Idle (after one tick alpha is 99/100,
alphaTarget 0), a pointer-down on node 0 pins the node but issues no
reheat as part of the transition: alpha stays 99/100 — which is not
1 — and alphaTarget stays 0, never set to a high (≈1) value. -/
theorem dragstart_no_reheat_cex :
    (run (1/100) (initWorld twoNodes) [Event.tick (fun _ => (0, 0))]).dragTarget = none ∧
    ((run (1/100) (initWorld twoNodes)
        [Event.tick (fun _ => (0, 0)), Event.pointerDown 0 10 10]).getNode 0).map
      Node.fx = some (some 10) ∧
    (run (1/100) (initWorld twoNodes)
        [Event.tick (fun _ => (0, 0)), Event.pointerDown 0 10 10]).alpha = 99/100 ∧
    ((99 : ℚ)/100 ≠ 1) ∧
    (run (1/100) (initWorld twoNodes)
        [Event.tick (fun _ => (0, 0)), Event.pointerDown 0 10 10]).alphaTarget = 0 := by
  refine ⟨by decide, by decide, ?_, by norm_num, ?_⟩ <;>
    norm_num [run, step, onDragStart, tickSim, initWorld, twoNodes, updNodes]

/-- C4 (amended): a pointer-down on a node while Idle pins that node at
the pointer coordinates, dims its circle, records it as the drag
target and subscribes the global move handler — but, contrary to the
claim's second half, issues no reheat and sets no alpha target:
`onDragStart` never touches the simulation; the reheat only happens in
`onDragMove`, on the first subsequent pointer-move. -/
theorem dragstart_from_idle_pins_without_reheat
    (decay : ℚ) (w : World) (i : ℕ) (p q : ℚ)
    (hidle : w.dragTarget = none) :
    (step decay w (Event.pointerDown i p q)).dragTarget = some i ∧
    (step decay w (Event.pointerDown i p q)).moveSubscribed = true ∧
    (step decay w (Event.pointerDown i p q)).alpha = w.alpha ∧
    (step decay w (Event.pointerDown i p q)).alphaTarget = w.alphaTarget ∧
    ∀ k : ℕ, ∀ n : Node, w.nodes[k]? = some n →
      (step decay w (Event.pointerDown i p q)).nodes[k]? =
        some (if n.id = i then { n with circleAlpha := 1/2, fx := some p, fy := some q }
              else n) := by
  refine ⟨rfl, rfl, rfl, rfl, ?_⟩
  intro k n hk
  simp [step, onDragStart, getElem?_updNodes, hk]

/-- Witness for the amended C4 at a concrete pointer-down from the
fresh world. -/
theorem dragstart_from_idle_pins_without_reheat_witness :
    (step (1/100) (initWorld twoNodes) (Event.pointerDown 0 7 8)).dragTarget = some 0 ∧
    (step (1/100) (initWorld twoNodes) (Event.pointerDown 0 7 8)).alpha = 1 ∧
    (step (1/100) (initWorld twoNodes) (Event.pointerDown 0 7 8)).alphaTarget = 0 ∧
    (step (1/100) (initWorld twoNodes) (Event.pointerDown 0 7 8)).nodes[0]? =
      some { id := 0, x := 0, y := 0, circleAlpha := 1/2, fx := some 7, fy := some 8 } := by
  have h := dragstart_from_idle_pins_without_reheat (1/100) (initWorld twoNodes)
    0 7 8 rfl
  refine ⟨h.1, h.2.2.1, h.2.2.2.1, ?_⟩
  have h5 := h.2.2.2.2 0 { id := 0, x := 0, y := 0 } (by rfl)
  simpa using h5

/-- Effect of one modelled tick on a node whose pin is set: the
position is clamped to the pin, the id and the pin survive. -/
theorem tickNode_pinned (a : ℚ) (f : ℚ × ℚ) (n : Node) (px py : ℚ)
    (hx : n.fx = some px) (hy : n.fy = some py) :
    (tickNode a f n).id = n.id ∧ (tickNode a f n).x = px ∧ (tickNode a f n).y = py ∧
      (tickNode a f n).fx = some px ∧ (tickNode a f n).fy = some py := by
  simp [tickNode, hx, hy]

/-- C1: if a node's pin `(fx, fy)` is non-null when a tick runs, the
tick clamps the node's position exactly to the pin (first part); and
across any non-empty run made only of ticks a pinned node sits exactly
at its pin, pin intact, after every tick — in particular pinning
before any ticking and running 10 ticks leaves the position at the pin
throughout (second part, instantiated by the witness). -/
theorem pinned_node_follows_pin (decay px py : ℚ) :
    (∀ (w : World) (f : ℕ → ℚ × ℚ) (n : Node), n ∈ w.nodes →
      n.fx = some px → n.fy = some py →
      ∃ m, m ∈ (step decay w (Event.tick f)).nodes ∧
        m.id = n.id ∧ m.x = px ∧ m.y = py ∧ m.fx = some px ∧ m.fy = some py) ∧
    (∀ (w : World) (es : List Event), es ≠ [] →
      (∀ e ∈ es, ∃ f, e = Event.tick f) →
      ∀ n : Node, n ∈ w.nodes → n.fx = some px → n.fy = some py →
      ∃ m, m ∈ (run decay w es).nodes ∧
        m.id = n.id ∧ m.x = px ∧ m.y = py ∧ m.fx = some px ∧ m.fy = some py) := by
  have part1 : ∀ (w : World) (f : ℕ → ℚ × ℚ) (n : Node), n ∈ w.nodes →
      n.fx = some px → n.fy = some py →
      ∃ m, m ∈ (step decay w (Event.tick f)).nodes ∧
        m.id = n.id ∧ m.x = px ∧ m.y = py ∧ m.fx = some px ∧ m.fy = some py := by
    intro w f n hn hx hy
    refine ⟨tickNode (w.alpha + (w.alphaTarget - w.alpha) * decay) (f n.id) n, ?_, ?_⟩
    · exact List.mem_map.mpr ⟨n, hn, rfl⟩
    · exact tickNode_pinned _ (f n.id) n px py hx hy
  have aux : ∀ (es : List Event), (∀ e ∈ es, ∃ f, e = Event.tick f) →
      ∀ (w : World) (m : Node), m ∈ w.nodes →
      m.x = px → m.y = py → m.fx = some px → m.fy = some py →
      ∃ m2, m2 ∈ (run decay w es).nodes ∧
        m2.id = m.id ∧ m2.x = px ∧ m2.y = py ∧ m2.fx = some px ∧ m2.fy = some py := by
    intro es
    induction es with
    | nil =>
      intro _ w m hm hx1 hy1 hfx hfy
      exact ⟨m, hm, rfl, hx1, hy1, hfx, hfy⟩
    | cons e es2 ih =>
      intro hticks w m hm hx1 hy1 hfx hfy
      obtain ⟨f, rfl⟩ := hticks e (List.mem_cons_self e es2)
      obtain ⟨m1, hm1, hid1, hx2, hy2, hfx2, hfy2⟩ := part1 w f m hm hfx hfy
      obtain ⟨m2, hm2, hid2, hx3, hy3, hfx3, hfy3⟩ :=
        ih (fun e2 he2 => hticks e2 (List.mem_cons_of_mem _ he2))
          (step decay w (Event.tick f)) m1 hm1 hx2 hy2 hfx2 hfy2
      exact ⟨m2, hm2, hid2.trans hid1, hx3, hy3, hfx3, hfy3⟩
  refine ⟨part1, ?_⟩
  intro w es hne hticks n hn hx hy
  cases es with
  | nil => exact absurd rfl hne
  | cons e es2 =>
    obtain ⟨f, rfl⟩ := hticks e (List.mem_cons_self e es2)
    obtain ⟨m1, hm1, hid1, hx2, hy2, hfx2, hfy2⟩ := part1 w f n hn hx hy
    obtain ⟨m2, hm2, hid2, hx3, hy3, hfx3, hfy3⟩ :=
      aux es2 (fun e2 he2 => hticks e2 (List.mem_cons_of_mem _ he2))
        (step decay w (Event.tick f)) m1 hm1 hx2 hy2 hfx2 hfy2
    exact ⟨m2, hm2, hid2.trans hid1, hx3, hy3, hfx3, hfy3⟩

/-- Witness for C1: a node pinned at (100, 100) before any ticking
stays exactly at (100, 100), pin intact, through a run of 10 ticks
with nonzero net forces. -/
theorem pinned_node_follows_pin_witness :
    ∃ m, m ∈ (run (1/100) (initWorld [pinNode])
        (List.replicate 10 (Event.tick (fun _ => (1, 1))))).nodes ∧
      m.id = pinNode.id ∧ m.x = 100 ∧ m.y = 100 ∧ m.fx = some 100 ∧ m.fy = some 100 :=
  (pinned_node_follows_pin (1/100) 100 100).2 (initWorld [pinNode])
    (List.replicate 10 (Event.tick (fun _ => (1, 1))))
    (by simp)
    (by
      intro e he
      rw [List.eq_of_mem_replicate he]
      exact ⟨_, rfl⟩)
    pinNode (by simp [initWorld, pinNode]) rfl rfl

/-- Every single event preserves the alpha invariant (for a decay rate
inside [0, 1]): the handlers never write a nonzero `alphaTarget`, a
reheat writes alpha 1, and a tick moves alpha from `alpha` toward the
zero target, staying in the unit interval. -/
theorem alphaInv_step (decay : ℚ) (hd0 : 0 ≤ decay) (hd1 : decay ≤ 1)
    (w : World) (hw : AlphaInv w) (e : Event) : AlphaInv (step decay w e) := by
  obtain ⟨ht, ha0, ha1⟩ := hw
  cases e with
  | pointerDown i p q => exact ⟨ht, ha0, ha1⟩
  | pointerMove p q =>
    by_cases hs : w.moveSubscribed
    · cases hdt : w.dragTarget with
      | none =>
        simp only [step, hs, if_true, onDragMove, hdt]
        exact ⟨ht, ha0, ha1⟩
      | some i =>
        simp only [step, hs, if_true, onDragMove, hdt]
        exact ⟨ht, by norm_num, le_refl 1⟩
    · simp only [step, hs, if_false]
      exact ⟨ht, ha0, ha1⟩
  | pointerUp =>
    cases hdt : w.dragTarget with
    | none =>
      simp only [step, onDragEnd, hdt]
      exact ⟨ht, ha0, ha1⟩
    | some i =>
      simp only [step, onDragEnd, hdt]
      exact ⟨rfl, ha0, ha1⟩
  | pointerUpOutside =>
    cases hdt : w.dragTarget with
    | none =>
      simp only [step, onDragEnd, hdt]
      exact ⟨ht, ha0, ha1⟩
    | some i =>
      simp only [step, onDragEnd, hdt]
      exact ⟨rfl, ha0, ha1⟩
  | tick f =>
    refine ⟨ht, ?_, ?_⟩
    · show 0 ≤ w.alpha + (w.alphaTarget - w.alpha) * decay
      rw [ht]
      nlinarith
    · show w.alpha + (w.alphaTarget - w.alpha) * decay ≤ 1
      rw [ht]
      nlinarith

/-- The alpha invariant holds after any event run that starts in a
state satisfying it. -/
theorem alphaInv_run (decay : ℚ) (hd0 : 0 ≤ decay) (hd1 : decay ≤ 1) :
    ∀ (es : List Event) (w : World), AlphaInv w → AlphaInv (run decay w es) := by
  intro es
  induction es with
  | nil => intro w hw; exact hw
  | cons e es ih =>
    intro w hw
    exact ih (step decay w e) (alphaInv_step decay hd0 hd1 w hw e)

/-- A single non-reheating event cannot increase alpha. -/
theorem alpha_nonincreasing_step (decay : ℚ) (hd0 : 0 ≤ decay)
    (w : World) (hw : AlphaInv w) (e : Event) (hnr : ¬ ReheatsIn w e) :
    (step decay w e).alpha ≤ w.alpha := by
  obtain ⟨ht, ha0, ha1⟩ := hw
  cases e with
  | pointerDown i p q => exact le_refl _
  | pointerMove p q =>
    by_cases hs : w.moveSubscribed
    · cases hdt : w.dragTarget with
      | none =>
        simp only [step, hs, if_true, onDragMove, hdt]
        exact le_refl _
      | some i => exact absurd ⟨hs, by rw [hdt]; rfl⟩ hnr
    · simp only [step, hs, if_false]
      exact le_refl _
  | pointerUp =>
    cases hdt : w.dragTarget with
    | none => simp only [step, onDragEnd, hdt]; exact le_refl _
    | some i => simp only [step, onDragEnd, hdt]; exact le_refl _
  | pointerUpOutside =>
    cases hdt : w.dragTarget with
    | none => simp only [step, onDragEnd, hdt]; exact le_refl _
    | some i => simp only [step, onDragEnd, hdt]; exact le_refl _
  | tick f =>
    show w.alpha + (w.alphaTarget - w.alpha) * decay ≤ w.alpha
    rw [ht]
    nlinarith

/-- Alpha never increases over a reheat-free event run from a state
satisfying the alpha invariant. -/
theorem alpha_nonincreasing_run (decay : ℚ) (hd0 : 0 ≤ decay) (hd1 : decay ≤ 1) :
    ∀ (bs : List Event) (w : World), AlphaInv w → NoReheat decay w bs →
      (run decay w bs).alpha ≤ w.alpha := by
  intro bs
  induction bs with
  | nil => intro w _ _; exact le_refl _
  | cons e bs ih =>
    intro w hw hnr
    obtain ⟨hnr1, hnr2⟩ := hnr
    exact le_trans (ih (step decay w e) (alphaInv_step decay hd0 hd1 w hw e) hnr2)
      (alpha_nonincreasing_step decay hd0 w hw e hnr1)

/-- C6: along every event history of the program (for any decay rate
in [0, 1]) alpha stays within [0, 1]; and from any reachable state,
across any further events none of which performs a reheat — in this
program `alphaTarget` is only ever written with 0, never a positive
value — alpha is monotonically non-increasing: ticks only decay it and
the remaining handlers leave it alone. -/
theorem alpha_in_unit_interval_and_nonincreasing
    (decay : ℚ) (hd0 : 0 ≤ decay) (hd1 : decay ≤ 1)
    (ns : List Node) (es bs : List Event)
    (hnr : NoReheat decay (run decay (initWorld ns) es) bs) :
    (0 ≤ (run decay (initWorld ns) es).alpha ∧
      (run decay (initWorld ns) es).alpha ≤ 1) ∧
    (run decay (run decay (initWorld ns) es) bs).alpha
      ≤ (run decay (initWorld ns) es).alpha := by
  have hinv : AlphaInv (run decay (initWorld ns) es) :=
    alphaInv_run decay hd0 hd1 es (initWorld ns)
      ⟨rfl, by norm_num [initWorld], le_refl 1⟩
  exact ⟨⟨hinv.2.1, hinv.2.2⟩,
    alpha_nonincreasing_run decay hd0 hd1 bs _ hinv hnr⟩

/-- Witness for C6: a concrete history (one tick from the fresh world)
followed by a reheat-free continuation of one more tick. -/
theorem alpha_in_unit_interval_and_nonincreasing_witness :
    ((0 ≤ (run (1/2) (initWorld twoNodes) [Event.tick (fun _ => (0, 0))]).alpha ∧
        (run (1/2) (initWorld twoNodes) [Event.tick (fun _ => (0, 0))]).alpha ≤ 1) ∧
      (run (1/2) (run (1/2) (initWorld twoNodes) [Event.tick (fun _ => (0, 0))])
          [Event.tick (fun _ => (0, 0))]).alpha
        ≤ (run (1/2) (initWorld twoNodes) [Event.tick (fun _ => (0, 0))]).alpha) :=
  alpha_in_unit_interval_and_nonincreasing (1/2) (by norm_num) (by norm_num)
    twoNodes [Event.tick (fun _ => (0, 0))] [Event.tick (fun _ => (0, 0))]
    ⟨not_false, trivial⟩

/-- A line command is not a circle command. -/
theorem isCircle_eq_false_of_isLine (c : DrawCmd) (h : c.isLine = true) :
    c.isCircle = false := by
  cases c <;> simp_all [DrawCmd.isLine, DrawCmd.isCircle]

/-- Every command the link pass of `updatePositions` emits is a
line. -/
theorem isLine_of_mem_linkPass (nodes : List Node) (links : List (ℕ × ℕ)) :
    ∀ c ∈ links.filterMap (fun l =>
      match nodes.find? (fun n => n.id = l.1), nodes.find? (fun n => n.id = l.2) with
      | some s, some t => some (DrawCmd.line s.x s.y t.x t.y)
      | _, _ => none), c.isLine = true := by
  intro c hc
  obtain ⟨l, _, hfl⟩ := List.mem_filterMap.mp hc
  rcases hs : nodes.find? (fun n => n.id = l.1) with _ | s <;>
    rcases ht : nodes.find? (fun n => n.id = l.2) with _ | t <;>
      rw [hs, ht] at hfl <;> simp at hfl
  subst hfl
  rfl

/-- Every command the node pass of `updatePositions` emits is a clear
or a circle, never a line. -/
theorem not_isLine_of_mem_nodePass (nodes : List Node) :
    ∀ c ∈ nodes.flatMap (fun n =>
      DrawCmd.clearCircle n.id :: drawNode n.id n.x n.y n.linkCount),
      c.isLine = false := by
  intro c hc
  obtain ⟨n, _, hcn⟩ := List.mem_flatMap.mp hc
  simp only [drawNode, List.mem_cons, List.not_mem_nil, or_false] at hcn
  rcases hcn with rfl | rfl | rfl <;> rfl

/-- In a concatenation whose first part contains no circle and whose
second part contains no line, nothing preceding a line is a circle. -/
theorem no_circle_before_line_in_append (xs ys : List DrawCmd)
    (hxs : ∀ c ∈ xs, c.isCircle = false) (hys : ∀ c ∈ ys, c.isLine = false) :
    ∀ (as bs : List DrawCmd) (c : DrawCmd), xs ++ ys = as ++ c :: bs →
      c.isLine = true → ∀ d ∈ as, d.isCircle = false := by
  intro as bs c heq hline d hd
  rcases List.append_eq_append_iff.mp heq with ⟨t, hast, hyt⟩ | ⟨t, hxt, hcbs⟩
  · have hcys : c ∈ ys := by
      rw [hyt]
      exact List.mem_append_right t (List.mem_cons_self c bs)
    rw [hys c hcys] at hline
    cases hline
  · exact hxs d (by rw [hxt]; exact List.mem_append_left t hd)

/-- Within the node pass of `updatePositions`, every circle command
for a graphic is preceded, inside the prefix of any split exhibiting
it, by a clear of that same graphic. -/
theorem clearCircle_mem_of_circle_split :
    ∀ (nodes : List Node) (t bs : List DrawCmd) (i : ℕ) (x y : ℚ) (r : ℕ),
      nodes.flatMap (fun n =>
        DrawCmd.clearCircle n.id :: drawNode n.id n.x n.y n.linkCount)
        = t ++ DrawCmd.circle i x y r :: bs →
      DrawCmd.clearCircle i ∈ t := by
  intro nodes
  induction nodes with
  | nil =>
    intro t bs i x y r h
    simp at h
  | cons n ns ih =>
    intro t bs i x y r h
    simp only [List.flatMap_cons, drawNode, List.cons_append, List.nil_append] at h
    rcases t with _ | ⟨d1, t⟩
    · simp only [List.nil_append, List.cons.injEq] at h
      exact absurd h.1 (by simp)
    rcases t with _ | ⟨d2, t⟩
    · simp only [List.cons_append, List.nil_append, List.cons.injEq] at h
      exact absurd h.2.1 (by simp)
    rcases t with _ | ⟨d3, t⟩
    · simp only [List.cons_append, List.nil_append, List.cons.injEq] at h
      obtain ⟨h1, h2, h3, h4⟩ := h
      injection h3 with hid hx2 hy2 hr2
      rw [← h1, ← hid]
      exact List.mem_cons_self _ _
    · simp only [List.cons_append, List.cons.injEq] at h
      obtain ⟨h1, h2, h3, h4⟩ := h
      exact List.mem_cons_of_mem d1 (List.mem_cons_of_mem d2
        (List.mem_cons_of_mem d3 (ih t bs i x y r h4)))

/-- C8: the render pass starts by clearing the shared link graphics;
in the emitted command stream no circle ever precedes a line — so all
link segments are drawn before any node circle and circles sit on
top — and every node circle is preceded by a clear of that node's own
circle graphic, so no stale primitive from the previous frame
survives. -/
theorem updatePositions_clear_first_lines_before_circles
    (nodes : List Node) (links : List (ℕ × ℕ)) :
    (updatePositions nodes links).head? = some DrawCmd.clearLinks ∧
    (∀ (as bs : List DrawCmd) (x1 y1 x2 y2 : ℚ),
      updatePositions nodes links = as ++ DrawCmd.line x1 y1 x2 y2 :: bs →
      ∀ d ∈ as, d.isCircle = false) ∧
    (∀ (as bs : List DrawCmd) (i : ℕ) (x y : ℚ) (r : ℕ),
      updatePositions nodes links = as ++ DrawCmd.circle i x y r :: bs →
      DrawCmd.clearCircle i ∈ as) := by
  have hxs : ∀ c ∈ (DrawCmd.clearLinks :: links.filterMap (fun l =>
      match nodes.find? (fun n => n.id = l.1), nodes.find? (fun n => n.id = l.2) with
      | some s, some t => some (DrawCmd.line s.x s.y t.x t.y)
      | _, _ => none)), c.isCircle = false := by
    intro c hc
    rcases List.mem_cons.mp hc with rfl | hc2
    · rfl
    · exact isCircle_eq_false_of_isLine c (isLine_of_mem_linkPass nodes links c hc2)
  have hys := not_isLine_of_mem_nodePass nodes
  have hsplit : updatePositions nodes links
      = (DrawCmd.clearLinks :: links.filterMap (fun l =>
          match nodes.find? (fun n => n.id = l.1), nodes.find? (fun n => n.id = l.2) with
          | some s, some t => some (DrawCmd.line s.x s.y t.x t.y)
          | _, _ => none))
        ++ nodes.flatMap (fun n =>
            DrawCmd.clearCircle n.id :: drawNode n.id n.x n.y n.linkCount) := rfl
  refine ⟨rfl, ?_, ?_⟩
  · intro as bs x1 y1 x2 y2 heq d hd
    exact no_circle_before_line_in_append _ _ hxs hys as bs _
      (hsplit.symm.trans heq) rfl d hd
  · intro as bs i x y r heq
    rcases List.append_eq_append_iff.mp (hsplit.symm.trans heq) with
      ⟨t, hast, hyt⟩ | ⟨t, hxt, hcbs⟩
    · rw [hast]
      exact List.mem_append_right _
        (clearCircle_mem_of_circle_split nodes t bs i x y r hyt)
    · rcases t with _ | ⟨d, t2⟩
      · have hys2 : nodes.flatMap (fun n =>
            DrawCmd.clearCircle n.id :: drawNode n.id n.x n.y n.linkCount)
            = ([] : List DrawCmd) ++ DrawCmd.circle i x y r :: bs := by
          simpa using hcbs.symm
        exact absurd (clearCircle_mem_of_circle_split nodes [] bs i x y r hys2)
          (List.not_mem_nil _)
      · have hd : d ∈ (DrawCmd.clearLinks :: links.filterMap (fun l =>
            match nodes.find? (fun n => n.id = l.1), nodes.find? (fun n => n.id = l.2) with
            | some s, some t => some (DrawCmd.line s.x s.y t.x t.y)
            | _, _ => none)) := by
          rw [hxt]
          exact List.mem_append_right as (List.mem_cons_self d t2)
        have hdc := hxs d hd
        have hdcirc : d = DrawCmd.circle i x y r := by
          have := (List.cons.injEq _ _ _ _).mp hcbs
          exact this.1.symm
        rw [hdcirc] at hdc
        cases hdc

/-- Witness for C8 at a concrete world: two nodes, one link. -/
theorem updatePositions_order_witness :
    (updatePositions twoNodes [(0, 1)]).head? = some DrawCmd.clearLinks ∧
    DrawCmd.clearCircle 0 ∈
      [DrawCmd.clearLinks, DrawCmd.line 0 0 5 5,
        DrawCmd.clearCircle 0, DrawCmd.clearCircle 0] :=
  ⟨(updatePositions_clear_first_lines_before_circles twoNodes [(0, 1)]).1,
    (updatePositions_clear_first_lines_before_circles twoNodes [(0, 1)]).2.2
      [DrawCmd.clearLinks, DrawCmd.line 0 0 5 5,
        DrawCmd.clearCircle 0, DrawCmd.clearCircle 0]
      [DrawCmd.clearCircle 1, DrawCmd.clearCircle 1, DrawCmd.circle 1 5 5 4]
      0 0 0 4 (by decide)⟩

end NodeGraph
